import Mathlib

/-!
Verification of `lighthouse-core/audits/installable-manifest.js`.

The audit inspects a parsed web-app-manifest checklist (`ManifestValues`) and
reports whether the page qualifies for an install prompt.  JavaScript objects
built by property assignment (`checks[check.id] = check.passing`) and by
object-spread (`{failures, ...checks}`) are modelled as association lists
over `String` keys with JS assignment semantics: assigning to an existing key
updates it in place, assigning to a fresh key appends it.
-/

/-- One entry of `manifestValues.allChecks`: an id, whether the check passed,
and the human-readable failure text. -/
structure Check where
  id : String
  passing : Bool
  failureText : String
deriving DecidableEq, Repr

/-- The `ManifestValues` artifact consumed by the audit.  `parseFailureReason`
is only ever read when `isParseFailure` is true. -/
structure ManifestValues where
  allChecks : List Check
  isParseFailure : Bool
  parseFailureReason : String
deriving DecidableEq, Repr

/-- The local constant `bannerCheckIds` of `getManifestFailures`. -/
def bannerCheckIds : List String :=
  ["hasName", "hasShortName", "hasStartUrl", "hasPWADisplayValue", "hasIconsAtLeast192px"]

/-- `InstallableManifest.getManifestFailures`:
`allChecks.filter(check => bannerCheckIds.includes(check.id) && !check.passing)
          .map(check => check.failureText)`. -/
def getManifestFailures (manifestValues : ManifestValues) : List String :=
  (manifestValues.allChecks.filter
      (fun check => bannerCheckIds.contains check.id && !check.passing)).map
    Check.failureText

/-- JS property assignment `m[k] = v` on an object modelled as an association
list: update the first occurrence of the key in place, or append a fresh key. -/
def jsSet {α : Type} : List (String × α) → String → α → List (String × α)
  | [], k, v => [(k, v)]
  | p :: rest, k, v => if p.1 = k then (k, v) :: rest else p :: jsSet rest k v

/-- JS property read `m[k]`: the value at the first occurrence of the key. -/
def lookupVal {α : Type} : List (String × α) → String → Option α
  | [], _ => none
  | p :: rest, k => if p.1 = k then some p.2 else lookupVal rest k

/-- `InstallableManifest.getManifestChecks`: start from the empty object and
run `checks[check.id] = check.passing` over `allChecks` in order. -/
def getManifestChecks (manifestValues : ManifestValues) : List (String × Bool) :=
  manifestValues.allChecks.foldl (fun checks check => jsSet checks check.id check.passing) []

/-- The `failures` array of `audit` after the conditional
`failures.push(manifestValues.parseFailureReason)`. -/
def failuresOf (manifestValues : ManifestValues) : List String :=
  let failures := getManifestFailures manifestValues
  if manifestValues.isParseFailure then failures ++ [manifestValues.parseFailureReason]
  else failures

/-- A value stored in the `details.items[0]` object: either the `failures`
array of strings or a boolean copied from the checks record. -/
inductive JsonVal where
  | strs : List String → JsonVal
  | bool : Bool → JsonVal
deriving DecidableEq, Repr

/-- The object literal `{failures, ...checks}`: a `failures` property holding
the failure messages, then every property of `checks` assigned in order. -/
def detailsItem (manifestValues : ManifestValues) : List (String × JsonVal) :=
  (getManifestChecks manifestValues).foldl
    (fun item kv => jsSet item kv.1 (JsonVal.bool kv.2))
    [("failures", JsonVal.strs (failuresOf manifestValues))]

/-- The audit product: `rawValue`, the optional `explanation`, and
`details.items` (a list of objects). -/
structure AuditProduct where
  rawValue : Bool
  explanation : Option String
  items : List (List (String × JsonVal))
deriving DecidableEq, Repr

/-- The body of `InstallableManifest.audit` after `ManifestValues.request`
has resolved to `manifestValues`. -/
def auditOnValues (manifestValues : ManifestValues) : AuditProduct :=
  let failures := failuresOf manifestValues
  let details := [detailsItem manifestValues]
  if failures.length > 0 then
    { rawValue := false
      explanation := some ("Failures: " ++ String.intercalate ",\n" failures ++ ".")
      items := details }
  else
    { rawValue := true, explanation := none, items := details }

/-- `InstallableManifest.audit`: `await ManifestValues.request(...)` and then
run the audit body.  A rejection of the awaited request propagates unchanged;
`req` is the outcome of that request. -/
def audit {ε : Type} (req : Except ε ManifestValues) : Except ε AuditProduct :=
  match req with
  | Except.error e => Except.error e
  | Except.ok manifestValues => Except.ok (auditOnValues manifestValues)

/-- Modelled from the spec: `RequiredCheckSet` is the fixed set of check
identifiers that gate installability. -/
def RequiredCheckSet : List String :=
  ["hasName", "hasShortName", "hasStartUrl", "hasPWADisplayValue", "hasIconsAtLeast192px"]

/-- Modelled from the spec: `selectFailures` retains only checks whose id is a
member of `RequiredCheckSet` and whose `passing` is false, in the checklist's
original relative order, and maps each retained check to its `failureText`. -/
def selectFailures (checklist : ManifestValues) : List String :=
  (checklist.allChecks.filter
      (fun check => decide (check.id ∈ RequiredCheckSet) && (check.passing = false))).map
    Check.failureText

/-- Modelled from the spec: the last-seen `passing` value for a given id in a
checklist (later entries overwrite earlier ones), or `none` if the id is
absent. -/
def lastVal (checks : List Check) (k : String) : Option Bool :=
  match checks with
  | [] => none
  | check :: rest =>
    match lastVal rest k with
    | some v => some v
    | none => if check.id = k then some check.passing else none

/-- The last value bound to a key in an association list, or `none`. -/
def lastPairVal {α : Type} : List (String × α) → String → Option α
  | [], _ => none
  | p :: rest, k =>
    match lastPairVal rest k with
    | some v => some v
    | none => if p.1 = k then some p.2 else none

/-- `orElseO a b` is `a` when `a` is `some`, and `b` otherwise. -/
def orElseO {α : Type} (a b : Option α) : Option α :=
  match a with
  | some v => some v
  | none => b

/-! ### Lemmas about the JS-object model -/

theorem lookupVal_jsSet {α : Type} (m : List (String × α)) (k k' : String) (v : α) :
    lookupVal (jsSet m k v) k' = if k' = k then some v else lookupVal m k' := by
  induction m with
  | nil =>
    simp only [jsSet, lookupVal]
    by_cases h : k' = k
    · simp [h]
    · have h2 : ¬k = k' := fun hh => h hh.symm
      simp [h, h2]
  | cons p rest ih =>
    simp only [jsSet]
    by_cases hp : p.1 = k
    · rw [if_pos hp]
      by_cases h : k' = k
      · subst h
        simp [lookupVal]
      · have h2 : ¬k = k' := fun hh => h hh.symm
        have h3 : ¬p.1 = k' := by rw [hp]; exact h2
        simp [lookupVal, h, h2, h3]
    · rw [if_neg hp]
      by_cases h : p.1 = k'
      · have h2 : ¬k' = k := fun hh => hp (h.trans hh)
        simp [lookupVal, h, h2]
      · simp only [lookupVal, if_neg h]
        rw [ih]

theorem lastPairVal_eq_none_iff {α : Type} (m : List (String × α)) (k : String) :
    lastPairVal m k = none ↔ ∀ p ∈ m, p.1 ≠ k := by
  induction m with
  | nil => simp [lastPairVal]
  | cons p rest ih =>
    constructor
    · intro h q hq
      cases hr : lastPairVal rest k with
      | some v => simp [lastPairVal, hr] at h
      | none =>
        simp only [lastPairVal, hr] at h
        by_cases hp : p.1 = k
        · simp [hp] at h
        · rcases List.mem_cons.mp hq with hq | hq
          · rw [hq]; exact hp
          · exact ih.mp hr q hq
    · intro hall
      have hr : lastPairVal rest k = none :=
        ih.mpr (fun q hq => hall q (List.mem_cons_of_mem p hq))
      simp [lastPairVal, hr, hall p (List.mem_cons_self p rest)]

theorem lookupVal_eq_lastPairVal {α : Type} (m : List (String × α))
    (hm : (m.map Prod.fst).Nodup) (k : String) :
    lookupVal m k = lastPairVal m k := by
  induction m with
  | nil => rfl
  | cons p rest ih =>
    simp only [List.map_cons, List.nodup_cons] at hm
    by_cases hp : p.1 = k
    · have hnone : lastPairVal rest k = none := by
        rw [lastPairVal_eq_none_iff]
        intro q hq hqk
        exact hm.1 (List.mem_map.mpr ⟨q, hq, hqk.trans hp.symm⟩)
      simp [lookupVal, lastPairVal, hp, hnone]
    · simp only [lookupVal, lastPairVal, if_neg hp, ih hm.2]
      cases lastPairVal rest k with
      | some v => rfl
      | none => simp [hp]

theorem map_fst_jsSet {α : Type} (m : List (String × α)) (k : String) (v : α) :
    (jsSet m k v).map Prod.fst =
      if k ∈ m.map Prod.fst then m.map Prod.fst else m.map Prod.fst ++ [k] := by
  induction m with
  | nil => simp [jsSet]
  | cons p rest ih =>
    simp only [jsSet]
    by_cases hp : p.1 = k
    · simp [hp]
    · have h2 : ¬k = p.1 := fun hh => hp hh.symm
      rw [if_neg hp, List.map_cons, ih, List.map_cons]
      by_cases h : k ∈ rest.map Prod.fst
      · simp [h, h2]
      · simp [h, h2]

theorem nodup_map_fst_jsSet {α : Type} (m : List (String × α)) (k : String) (v : α)
    (hm : (m.map Prod.fst).Nodup) : ((jsSet m k v).map Prod.fst).Nodup := by
  rw [map_fst_jsSet]
  by_cases h : k ∈ m.map Prod.fst
  · simpa [h] using hm
  · rw [if_neg h]
    refine hm.append (List.nodup_singleton k) ?_
    intro a ha hb
    rw [List.mem_singleton] at hb
    subst hb
    exact h ha

theorem nodup_map_fst_getManifestChecks_aux (l : List Check) :
    ∀ acc : List (String × Bool), (acc.map Prod.fst).Nodup →
      ((l.foldl (fun checks check => jsSet checks check.id check.passing) acc).map
          Prod.fst).Nodup := by
  induction l with
  | nil => intro acc hacc; simpa using hacc
  | cons c l ih =>
    intro acc hacc
    exact ih _ (nodup_map_fst_jsSet acc c.id c.passing hacc)

theorem nodup_map_fst_getManifestChecks (manifestValues : ManifestValues) :
    ((getManifestChecks manifestValues).map Prod.fst).Nodup :=
  nodup_map_fst_getManifestChecks_aux manifestValues.allChecks [] (by simp)

theorem lookupVal_foldl_jsSet (l : List Check) :
    ∀ (acc : List (String × Bool)) (k : String),
      lookupVal (l.foldl (fun checks check => jsSet checks check.id check.passing) acc) k =
        orElseO (lastVal l k) (lookupVal acc k) := by
  induction l with
  | nil => intro acc k; simp [lastVal, orElseO]
  | cons c l ih =>
    intro acc k
    rw [List.foldl_cons, ih, lookupVal_jsSet]
    simp only [lastVal]
    cases h : lastVal l k with
    | some v => simp [orElseO]
    | none =>
      by_cases hk : c.id = k
      · subst hk
        simp [orElseO]
      · have hk2 : ¬k = c.id := fun hh => hk hh.symm
        simp [orElseO, hk, hk2]

theorem lookupVal_getManifestChecks (manifestValues : ManifestValues) (k : String) :
    lookupVal (getManifestChecks manifestValues) k = lastVal manifestValues.allChecks k := by
  rw [getManifestChecks, lookupVal_foldl_jsSet]
  cases lastVal manifestValues.allChecks k <;> rfl

theorem lookupVal_foldl_jsSet_bool (l : List (String × Bool)) :
    ∀ (init : List (String × JsonVal)) (k : String),
      lookupVal (l.foldl (fun item kv => jsSet item kv.1 (JsonVal.bool kv.2)) init) k =
        orElseO ((lastPairVal l k).map JsonVal.bool) (lookupVal init k) := by
  induction l with
  | nil => intro init k; simp [lastPairVal, orElseO]
  | cons p l ih =>
    intro init k
    rw [List.foldl_cons, ih, lookupVal_jsSet]
    simp only [lastPairVal]
    cases h : lastPairVal l k with
    | some v => simp [orElseO]
    | none =>
      by_cases hk : p.1 = k
      · subst hk
        simp [orElseO]
      · have hk2 : ¬k = p.1 := fun hh => hk hh.symm
        simp [orElseO, hk, hk2]

theorem lastVal_eq_none_iff (l : List Check) (k : String) :
    lastVal l k = none ↔ ∀ c ∈ l, c.id ≠ k := by
  induction l with
  | nil => simp [lastVal]
  | cons c rest ih =>
    constructor
    · intro h q hq
      cases hr : lastVal rest k with
      | some v => simp [lastVal, hr] at h
      | none =>
        simp only [lastVal, hr] at h
        by_cases hp : c.id = k
        · simp [hp] at h
        · rcases List.mem_cons.mp hq with hq | hq
          · rw [hq]; exact hp
          · exact ih.mp hr q hq
    · intro hall
      have hr : lastVal rest k = none :=
        ih.mpr (fun q hq => hall q (List.mem_cons_of_mem c hq))
      simp [lastVal, hr, hall c (List.mem_cons_self c rest)]

theorem lastVal_isSome_iff (l : List Check) (k : String) :
    (lastVal l k).isSome = true ↔ k ∈ l.map Check.id := by
  constructor
  · intro h
    by_contra hk
    have hnone : lastVal l k = none :=
      (lastVal_eq_none_iff l k).mpr (fun c hc hck => hk (List.mem_map.mpr ⟨c, hc, hck⟩))
    rw [hnone] at h
    simp at h
  · intro h
    cases hl : lastVal l k with
    | some v => rfl
    | none =>
      rcases List.mem_map.mp h with ⟨c, hc, hck⟩
      exact absurd hck ((lastVal_eq_none_iff l k).mp hl c hc)

theorem getManifestFailures_eq_nil (manifestValues : ManifestValues)
    (h : ∀ c ∈ manifestValues.allChecks, c.id ∈ bannerCheckIds → c.passing = true) :
    getManifestFailures manifestValues = [] := by
  unfold getManifestFailures
  rw [List.map_eq_nil_iff, List.filter_eq_nil_iff]
  intro c hc
  by_cases hid : c.id ∈ bannerCheckIds
  · simp [h c hc hid]
  · simp [hid]

theorem mem_getManifestFailures (manifestValues : ManifestValues) (s : String)
    (hs : s ∈ getManifestFailures manifestValues) :
    ∃ c ∈ manifestValues.allChecks,
      c.id ∈ bannerCheckIds ∧ c.passing = false ∧ c.failureText = s := by
  unfold getManifestFailures at hs
  rcases List.mem_map.mp hs with ⟨c, hc, heq⟩
  rw [List.mem_filter] at hc
  rcases hc with ⟨hmem, hpred⟩
  simp only [Bool.and_eq_true, Bool.not_eq_true'] at hpred
  refine ⟨c, hmem, ?_, hpred.2, heq⟩
  simpa using hpred.1

/-! ### Concrete inputs used by witnesses and counterexamples -/

/-- An empty checklist with no parse failure. -/
def mvEmpty : ManifestValues := ⟨[], false, ""⟩

/-- An empty checklist whose manifest failed to parse. -/
def mvParseFail : ManifestValues := ⟨[], true, "Failed to fetch manifest"⟩

/-- A checklist in which every required check passes. -/
def mvAllPass : ManifestValues :=
  ⟨[⟨"hasName", true, ""⟩, ⟨"hasShortName", true, ""⟩, ⟨"hasStartUrl", true, ""⟩,
    ⟨"hasPWADisplayValue", true, ""⟩, ⟨"hasIconsAtLeast192px", true, ""⟩], false, ""⟩

/-- A checklist with one failing required check. -/
def mvShortName : ManifestValues :=
  ⟨[⟨"hasShortName", false, "no short_name"⟩], false, ""⟩

/-- A checklist where a failing non-required check shares its `failureText`
with a failing required check. -/
def mvAlias : ManifestValues :=
  ⟨[⟨"hasName", false, "X"⟩, ⟨"other", false, "X"⟩], false, ""⟩

/-- A checklist with a single failing non-required check. -/
def mvOther : ManifestValues := ⟨[⟨"other", false, "Y"⟩], false, ""⟩

/-- A checklist containing a check whose id is the string `failures`. -/
def mvFailuresKey : ManifestValues := ⟨[⟨"failures", true, ""⟩], false, ""⟩

/-! ### The claims -/

/-- C1: for every checklist, `getManifestFailures` returns exactly the
`failureText` of each check whose id is in `RequiredCheckSet` and whose
`passing` is false, in the checklist's original relative order; it is total
and may return the empty sequence. -/
theorem c1_getManifestFailures_refines_selectFailures (manifestValues : ManifestValues) :
    getManifestFailures manifestValues = selectFailures manifestValues := by
  unfold getManifestFailures selectFailures
  congr 1
  apply List.filter_congr
  intro c _
  cases hcp : c.passing
  · simp [bannerCheckIds, RequiredCheckSet]
  · simp [bannerCheckIds, RequiredCheckSet]

/-- C2: the produced verdict has `rawValue = true` exactly when the failures
sequence (including a possibly appended parse-failure reason) is empty. -/
theorem c2_passed_iff_no_failures (manifestValues : ManifestValues) :
    (auditOnValues manifestValues).rawValue = true ↔ failuresOf manifestValues = [] := by
  by_cases h : (failuresOf manifestValues).length > 0
  · have hne : failuresOf manifestValues ≠ [] := by
      intro hnil
      rw [hnil] at h
      simp at h
    simp [auditOnValues, h, hne]
  · have hnil : failuresOf manifestValues = [] := by
      cases hf : failuresOf manifestValues with
      | nil => rfl
      | cons a l =>
        rw [hf] at h
        simp at h
    simp [auditOnValues, h, hnil]

/-- C3: when `isParseFailure` is true the audit still completes, appending
`parseFailureReason` as the last failure message and yielding `rawValue =
false`. -/
theorem c3_parse_failure_appended_last (manifestValues : ManifestValues)
    (hp : manifestValues.isParseFailure = true) :
    failuresOf manifestValues
        = getManifestFailures manifestValues ++ [manifestValues.parseFailureReason] ∧
    (failuresOf manifestValues).getLast? = some manifestValues.parseFailureReason ∧
    (auditOnValues manifestValues).rawValue = false := by
  have h1 : failuresOf manifestValues
      = getManifestFailures manifestValues ++ [manifestValues.parseFailureReason] := by
    simp [failuresOf, hp]
  refine ⟨h1, ?_, ?_⟩
  · rw [h1]
    exact List.getLast?_concat _
  · have hlen : (failuresOf manifestValues).length > 0 := by
      rw [h1]
      simp
    simp [auditOnValues, hlen]

/-- Witness for C3 at the concrete parse-failure checklist. -/
theorem c3_parse_failure_appended_last_witness :
    failuresOf mvParseFail
        = getManifestFailures mvParseFail ++ [mvParseFail.parseFailureReason] ∧
    (failuresOf mvParseFail).getLast? = some mvParseFail.parseFailureReason ∧
    (auditOnValues mvParseFail).rawValue = false :=
  c3_parse_failure_appended_last mvParseFail rfl

/-- C4: `getManifestChecks` records id to passing for every check, its key
set equals the checklist's id set, and for duplicate ids the last-seen
entry's `passing` value wins. -/
theorem c4_getManifestChecks_last_seen_wins (manifestValues : ManifestValues) (k : String) :
    lookupVal (getManifestChecks manifestValues) k = lastVal manifestValues.allChecks k ∧
    ((lookupVal (getManifestChecks manifestValues) k).isSome = true ↔
      k ∈ manifestValues.allChecks.map Check.id) := by
  have h := lookupVal_getManifestChecks manifestValues k
  exact ⟨h, by rw [h]; exact lastVal_isSome_iff _ k⟩

/-- C5 counterexample: in `mvAlias` the check `other` is not in
`RequiredCheckSet`, yet its `failureText` (the string `X`, shared with the
failing required check `hasName`) does appear in the failure messages. -/
theorem c5_counterexample_aliased_failure_text :
    (⟨"other", false, "X"⟩ : Check) ∈ mvAlias.allChecks ∧
    "other" ∉ RequiredCheckSet ∧
    Check.failureText ⟨"other", false, "X"⟩ ∈ failuresOf mvAlias := by
  decide

/-- C5 amended: a check whose id is not in `RequiredCheckSet` never
contributes: its `failureText` appears in the failure messages only if it
coincides with the `failureText` of some failing required check or with the
parse-failure reason; its id always appears as a key in the check results. -/
theorem c5_nonrequired_never_contributes (manifestValues : ManifestValues) (c : Check)
    (hc : c ∈ manifestValues.allChecks) (_hid : c.id ∉ RequiredCheckSet) :
    (c.failureText ∈ failuresOf manifestValues →
        (∃ c' ∈ manifestValues.allChecks, c'.id ∈ RequiredCheckSet ∧ c'.passing = false ∧
          c'.failureText = c.failureText) ∨
        (manifestValues.isParseFailure = true ∧
          c.failureText = manifestValues.parseFailureReason)) ∧
    (lookupVal (getManifestChecks manifestValues) c.id).isSome = true := by
  constructor
  · intro hmem
    cases hpf : manifestValues.isParseFailure with
    | false =>
      rw [failuresOf, hpf] at hmem
      simp only [Bool.false_eq_true, if_false] at hmem
      rcases mem_getManifestFailures manifestValues c.failureText hmem with
        ⟨c', hc', hid', hpass', heq⟩
      exact Or.inl ⟨c', hc', hid', hpass', heq⟩
    | true =>
      rw [failuresOf, hpf] at hmem
      simp only [if_true] at hmem
      rcases List.mem_append.mp hmem with hmem | hmem
      · rcases mem_getManifestFailures manifestValues c.failureText hmem with
          ⟨c', hc', hid', hpass', heq⟩
        exact Or.inl ⟨c', hc', hid', hpass', heq⟩
      · exact Or.inr ⟨rfl, List.mem_singleton.mp hmem⟩
  · rw [lookupVal_getManifestChecks, lastVal_isSome_iff]
    exact List.mem_map.mpr ⟨c, hc, rfl⟩

/-- Witness for the amended C5 at the concrete checklist `mvOther`. -/
theorem c5_nonrequired_never_contributes_witness :
    (Check.failureText ⟨"other", false, "Y"⟩ ∈ failuresOf mvOther →
        (∃ c' ∈ mvOther.allChecks, c'.id ∈ RequiredCheckSet ∧ c'.passing = false ∧
          c'.failureText = Check.failureText ⟨"other", false, "Y"⟩) ∨
        (mvOther.isParseFailure = true ∧
          Check.failureText ⟨"other", false, "Y"⟩ = mvOther.parseFailureReason)) ∧
    (lookupVal (getManifestChecks mvOther) (Check.id ⟨"other", false, "Y"⟩)).isSome = true :=
  c5_nonrequired_never_contributes mvOther ⟨"other", false, "Y"⟩ (by decide) (by decide)

/-- C6: when every check in the checklist whose id is in `RequiredCheckSet`
passes and there is no parse failure, the verdict passes with no failure
messages. -/
theorem c6_all_required_passing (manifestValues : ManifestValues)
    (hp : manifestValues.isParseFailure = false)
    (hpass : ∀ c ∈ manifestValues.allChecks, c.id ∈ RequiredCheckSet → c.passing = true) :
    (auditOnValues manifestValues).rawValue = true ∧ failuresOf manifestValues = [] := by
  have hnil : getManifestFailures manifestValues = [] :=
    getManifestFailures_eq_nil manifestValues (fun c hc hid => hpass c hc hid)
  have hfnil : failuresOf manifestValues = [] := by
    simp [failuresOf, hp, hnil]
  exact ⟨by simp [auditOnValues, hfnil], hfnil⟩

/-- Witness for C6 at the concrete all-passing checklist. -/
theorem c6_all_required_passing_witness :
    (auditOnValues mvAllPass).rawValue = true ∧ failuresOf mvAllPass = [] :=
  c6_all_required_passing mvAllPass rfl (by decide)

/-- C7: the explanation is present only when `rawValue` is false, and then
equals `Failures: ` followed by the failure messages joined with a comma and
newline, followed by a period. -/
theorem c7_explanation_format (manifestValues : ManifestValues) :
    ((auditOnValues manifestValues).explanation.isSome = true →
      (auditOnValues manifestValues).rawValue = false) ∧
    ((auditOnValues manifestValues).rawValue = false →
      (auditOnValues manifestValues).explanation
        = some ("Failures: " ++ String.intercalate ",\n" (failuresOf manifestValues) ++ ".")) := by
  by_cases h : (failuresOf manifestValues).length > 0
  · constructor
    · intro _
      simp [auditOnValues, h]
    · intro _
      simp [auditOnValues, h]
  · constructor
    · intro hs
      simp [auditOnValues, h] at hs
    · intro hr
      simp [auditOnValues, h] at hr

/-- Witness for C7 at the concrete failing checklist `mvShortName`. -/
theorem c7_explanation_format_witness :
    (auditOnValues mvShortName).rawValue = false ∧
    (auditOnValues mvShortName).explanation
      = some ("Failures: " ++ String.intercalate ",\n" (failuresOf mvShortName) ++ ".") :=
  ⟨by decide, (c7_explanation_format mvShortName).2 (by decide)⟩

/-- C8: when the checklist-derivation request fails, `audit` propagates that
failure unchanged and produces no audit product. -/
theorem c8_audit_propagates_error {ε : Type} (e : ε) :
    audit (Except.error e : Except ε ManifestValues) = Except.error e := rfl

/-- C9: a required id that is absent from the checklist contributes no
failure message: even when some `RequiredCheckSet` id appears on no check,
the audit passes as long as every present required check passes and there is
no parse failure. -/
theorem c9_absent_required_check_not_blocking (manifestValues : ManifestValues)
    (hp : manifestValues.isParseFailure = false)
    (_habsent : ∃ rid ∈ RequiredCheckSet, ∀ c ∈ manifestValues.allChecks, c.id ≠ rid)
    (hpass : ∀ c ∈ manifestValues.allChecks, c.id ∈ RequiredCheckSet → c.passing = true) :
    (auditOnValues manifestValues).rawValue = true ∧ failuresOf manifestValues = [] := by
  have hnil : getManifestFailures manifestValues = [] :=
    getManifestFailures_eq_nil manifestValues (fun c hc hid => hpass c hc hid)
  have hfnil : failuresOf manifestValues = [] := by
    simp [failuresOf, hp, hnil]
  exact ⟨by simp [auditOnValues, hfnil], hfnil⟩

/-- Witness for C9 at the empty checklist, where every required id is
absent. -/
theorem c9_absent_required_check_not_blocking_witness :
    (auditOnValues mvEmpty).rawValue = true ∧ failuresOf mvEmpty = [] :=
  c9_absent_required_check_not_blocking mvEmpty rfl
    ⟨"hasName", by decide, by decide⟩ (by decide)

/-- C10: in `details.items[0]` the check-id keys are assigned after the
`failures` field, so a check whose id is the string `failures` overwrites the
failure-message sequence with its boolean, while checklists avoiding that id
expose the full sequence under the `failures` key. -/
theorem c10_details_failures_key_overwritten (manifestValues : ManifestValues) :
    ((∃ c ∈ manifestValues.allChecks, c.id = "failures") →
      lookupVal (detailsItem manifestValues) "failures"
        = (lastVal manifestValues.allChecks "failures").map JsonVal.bool) ∧
    ((∀ c ∈ manifestValues.allChecks, c.id ≠ "failures") →
      lookupVal (detailsItem manifestValues) "failures"
        = some (JsonVal.strs (failuresOf manifestValues))) := by
  have hkey : lookupVal (detailsItem manifestValues) "failures"
      = orElseO ((lastPairVal (getManifestChecks manifestValues) "failures").map JsonVal.bool)
          (some (JsonVal.strs (failuresOf manifestValues))) := by
    unfold detailsItem
    rw [lookupVal_foldl_jsSet_bool]
    simp [lookupVal]
  have hlast : lastPairVal (getManifestChecks manifestValues) "failures"
      = lastVal manifestValues.allChecks "failures" := by
    rw [← lookupVal_eq_lastPairVal _ (nodup_map_fst_getManifestChecks manifestValues),
      lookupVal_getManifestChecks]
  constructor
  · intro hex
    rcases hex with ⟨c, hc, hcid⟩
    have hsome : (lastVal manifestValues.allChecks "failures").isSome = true :=
      (lastVal_isSome_iff _ _).mpr (List.mem_map.mpr ⟨c, hc, hcid⟩)
    rcases Option.isSome_iff_exists.mp hsome with ⟨v, hv⟩
    rw [hkey, hlast, hv]
    rfl
  · intro hall
    have hnone : lastVal manifestValues.allChecks "failures" = none :=
      (lastVal_eq_none_iff _ _).mpr hall
    rw [hkey, hlast, hnone]
    rfl

/-- Witness for C10 at the concrete checklist `mvFailuresKey`, which contains
a check with id `failures`. -/
theorem c10_details_failures_key_overwritten_witness :
    lookupVal (detailsItem mvFailuresKey) "failures"
      = (lastVal mvFailuresKey.allChecks "failures").map JsonVal.bool :=
  (c10_details_failures_key_overwritten mvFailuresKey).1
    ⟨⟨"failures", true, ""⟩, by decide, rfl⟩
